import Mathlib

/-!
Verification of `matched_images_labels.py` from the YOLO-Dataset-Splitter-Validator
repository.

The script's single function `filter_annotated_data` reconciles an exported
image-label dataset: it scans the labels directory for `.txt` files, derives the
matching image filename from each label filename (the stem with the identifier
piece before the first hyphen removed, plus `.jpg`), copies matched pairs into an
output tree, copies the class file, and logs progress and skip reasons.

The shallow embedding below models directories as association lists from file
name to byte content, the filesystem effects as explicit state passing, and the
per-file exceptions that `shutil.copy2` may raise through a fault oracle.
-/

set_option autoImplicit false

namespace YoloFilter

/-- File content, a list of bytes. -/
abbrev Bytes := List Nat

/-- A directory: an association list from file name to file content. -/
abbrev Dir := List (String × Bytes)

/-- Look up a file by name in a directory. -/
def lookupFile : Dir → String → Option Bytes
  | [], _ => none
  | (k', v) :: t, k => if k' = k then some v else lookupFile t k

/-- Write a file into a directory, overwriting an existing file of that name
(the behaviour of `shutil.copy2` on an existing destination). -/
def assocInsert : Dir → String → Bytes → Dir
  | [], k, v => [(k, v)]
  | (k', v') :: t, k, v => if k' = k then (k, v) :: t else (k', v') :: assocInsert t k v

/-- Split a character list at every occurrence of `c`, mirroring Python's
`str.split(sep)` with an explicit separator: adjacent separators yield empty
pieces and the result is never empty. -/
def splitOnChar (c : Char) : List Char → List (List Char)
  | [] => [[]]
  | x :: xs =>
    if x = c then [] :: splitOnChar c xs
    else (x :: (splitOnChar c xs).headI) :: (splitOnChar c xs).tail

/-- Join character lists with the character `c` between them, mirroring
Python's `sep.join(parts)` for a one-character separator. -/
def joinWith (c : Char) : List (List Char) → List Char
  | [] => []
  | [h] => h
  | h :: h' :: t => h ++ c :: joinWith c (h' :: t)

/-- Python `pathlib` name splitting: the pair `(stem, suffix)` of a file name.
The suffix is the part of the name from its last dot on, provided that dot is
neither the first nor the last character; otherwise the suffix is empty and the
stem is the whole name. -/
def pySplitName (name : String) : String × String :=
  let l := name.toList
  match l.reverse.findIdx? (fun c => c = '.') with
  | none => (name, "")
  | some j =>
    let i := l.length - 1 - j
    if 0 < i ∧ i < l.length - 1 then ((l.take i).asString, (l.drop i).asString)
    else (name, "")

/-- Python `Path(name).stem`. -/
def pyStem (name : String) : String := (pySplitName name).1

/-- Python `Path(name).suffix`. -/
def pySuffix (name : String) : String := (pySplitName name).2

/-- Python `str.lower()` (ASCII-relevant part, applied character-wise). -/
def pyLower (s : String) : String := (s.toList.map Char.toLower).asString

/-- Source line 57-61: `parts = label_path.stem.split('-')`; if there is more
than one part the base name is `'-'.join(parts[1:])`, otherwise the stem
itself. -/
def imageBaseName (stem : String) : String :=
  let parts := splitOnChar '-' stem.toList
  if parts.length > 1 then (joinWith '-' parts.tail).asString
  else stem

/-- Source line 64: the expected image filename, the image base name followed
by the fixed `.jpg` extension, derived from a label file name. -/
def deriveImageFilename (labelName : String) : String :=
  imageBaseName (pyStem labelName) ++ ".jpg"

/-- The log events `filter_annotated_data` can emit, in order of the source's
logging calls. -/
inductive LogEvent where
  | errorMissingSources : LogEvent
  | infoCreatedDir : LogEvent
  | infoStart : LogEvent
  | warnSkip (labelName : String) (imageFilename : String) : LogEvent
  | errorProcessing (labelName : String) : LogEvent
  | infoComplete (copiedCount : Nat) : LogEvent
  | infoAvailable : LogEvent
deriving DecidableEq

/-- Fault oracle value for one label file: whether `shutil.copy2` raises while
copying the image, raises while copying the label, or succeeds for both. -/
inductive CopyFault where
  | noFault : CopyFault
  | onImageCopy : CopyFault
  | onLabelCopy : CopyFault
deriving DecidableEq

/-- The source filesystem as the function sees it: each of the three source
paths either exists (with its content) or does not. The class file carries its
own name, since the script copies it under `source_classes_file.name`. -/
structure SourceFS where
  imagesDir : Option Dir
  labelsDir : Option Dir
  classFile : Option (String × Bytes)
deriving DecidableEq

/-- The output directory tree: the `images` and `labels` subdirectories (absent
until `mkdir`), and the files at the root of the output directory. -/
structure OutputTree where
  imagesDir : Option Dir
  labelsDir : Option Dir
  rootFiles : Dir
deriving DecidableEq

/-- Look up a file in a possibly-absent directory. -/
def dirLookup (d : Option Dir) (k : String) : Option Bytes :=
  match d with
  | none => none
  | some files => lookupFile files k

/-- Copy a file into a possibly-absent directory (the directory exists whenever
the script copies, since it ran `mkdir` first). -/
def copyInto (d : Option Dir) (k : String) (v : Bytes) : Option Dir :=
  some (assocInsert (d.getD []) k v)

/-- Source lines 40-41: `mkdir(parents=True, exist_ok=True)` on the `images`
and `labels` output subdirectories. -/
def mkdirOutput (o : OutputTree) : OutputTree :=
  { o with imagesDir := some (o.imagesDir.getD []), labelsDir := some (o.labelsDir.getD []) }

/-- Source line 46: the label files, those files of the labels directory whose
suffix lowercased is `.txt`. -/
def labelFilesOf (lbls : Dir) : Dir :=
  lbls.filter (fun f => pyLower (pySuffix f.1) = ".txt")

/-- The mutable state of the processing loop: the output tree, the
`copied_count` counter, and the log so far. -/
structure LoopState where
  out : OutputTree
  copiedCount : Nat
  log : List LogEvent
deriving DecidableEq

/-- Source lines 51-77: the body of the loop for one label file. Derive the
image filename; if the image exists, copy image then label and increment the
counter, a `shutil.copy2` exception being caught and logged; if the image does
not exist, log a warning and skip. -/
def processLabel (imgs : Dir) (fault : String → CopyFault) (st : LoopState)
    (lbl : String × Bytes) : LoopState :=
  match lookupFile imgs (deriveImageFilename lbl.1) with
  | some imgBytes =>
    match fault lbl.1 with
    | CopyFault.onImageCopy =>
      { st with log := st.log ++ [LogEvent.errorProcessing lbl.1] }
    | CopyFault.onLabelCopy =>
      { st with
        out := { st.out with
                  imagesDir := copyInto st.out.imagesDir (deriveImageFilename lbl.1) imgBytes },
        log := st.log ++ [LogEvent.errorProcessing lbl.1] }
    | CopyFault.noFault =>
      { st with
        out := { st.out with
                  imagesDir := copyInto st.out.imagesDir (deriveImageFilename lbl.1) imgBytes,
                  labelsDir := copyInto st.out.labelsDir lbl.1 lbl.2 },
        copiedCount := st.copiedCount + 1 }
  | none =>
    { st with log := st.log ++ [LogEvent.warnSkip lbl.1 (deriveImageFilename lbl.1)] }

/-- Result of a run: `exit1` models `sys.exit(1)` on failed source validation
(carrying the untouched output tree and the log), `ok` a completed run. -/
inductive RunResult where
  | exit1 (out : OutputTree) (log : List LogEvent) : RunResult
  | ok (out : OutputTree) (copiedCount : Nat) (log : List LogEvent) : RunResult
deriving DecidableEq

/-- The loop state before the first iteration: the freshly made output
subdirectories, `copied_count = 0`, and the two informational log lines already
emitted (lines 43 and 50). -/
def loopInit (outInit : OutputTree) : LoopState :=
  ⟨mkdirOutput outInit, 0, [LogEvent.infoCreatedDir, LogEvent.infoStart]⟩

/-- The loop of lines 51-77 folded over the label files. -/
def runLoop (imgs lbls : Dir) (fault : String → CopyFault) (outInit : OutputTree) : LoopState :=
  (labelFilesOf lbls).foldl (processLabel imgs fault) (loopInit outInit)

/-- The function `filter_annotated_data` (source lines 15-83). Validates the
three source paths, creates the output subdirectories, folds the per-label loop
body over the label files, copies the class file, and logs the final count. -/
def filter_annotated_data (fs : SourceFS) (outInit : OutputTree)
    (fault : String → CopyFault) : RunResult :=
  match fs.imagesDir, fs.labelsDir, fs.classFile with
  | some imgs, some lbls, some cls =>
    let st := runLoop imgs lbls fault outInit
    RunResult.ok { st.out with rootFiles := assocInsert st.out.rootFiles cls.1 cls.2 }
      st.copiedCount (st.log ++ [LogEvent.infoComplete st.copiedCount, LogEvent.infoAvailable])
  | _, _, _ => RunResult.exit1 outInit [LogEvent.errorMissingSources]

/-- The fault oracle of a run in which no copy raises. -/
def noFaultOracle : String → CopyFault := fun _ => CopyFault.noFault

/-- A label file name is matched when its derived image filename exists in the
source images directory (the `source_image_path.is_file()` test of line 67). -/
def matchedLabel (imgs : Dir) (n : String) : Bool :=
  (lookupFile imgs (deriveImageFilename n)).isSome

/-- The loop iteration for `lbl` writes the image file `k` into the output
images directory: `k` is the derived image filename, the image exists, and the
image copy does not raise. -/
def copiesImageTo (imgs : Dir) (fault : String → CopyFault) (k : String)
    (lbl : String × Bytes) : Bool :=
  decide (deriveImageFilename lbl.1 = k) && matchedLabel imgs lbl.1 &&
    decide (fault lbl.1 ≠ CopyFault.onImageCopy)

/-- The loop iteration for `lbl` writes the label file `k` into the output
labels directory: `k` is the label's own name, its image exists, and neither
copy raises. -/
def copiesLabelTo (imgs : Dir) (fault : String → CopyFault) (k : String)
    (lbl : String × Bytes) : Bool :=
  decide (lbl.1 = k) && matchedLabel imgs lbl.1 &&
    decide (fault lbl.1 = CopyFault.noFault)

/-- The loop iteration for `lbl` increments `copied_count`: the image exists
and both copies complete. -/
def countsAsCopied (imgs : Dir) (fault : String → CopyFault) (lbl : String × Bytes) : Bool :=
  matchedLabel imgs lbl.1 && decide (fault lbl.1 = CopyFault.noFault)

/-- The log events one loop iteration emits: nothing on a clean copy, an error
on a caught exception, a warning naming the label and the missing image
otherwise. -/
def perLabelLog (imgs : Dir) (fault : String → CopyFault) (lbl : String × Bytes) :
    List LogEvent :=
  match lookupFile imgs (deriveImageFilename lbl.1) with
  | some _ =>
    match fault lbl.1 with
    | CopyFault.noFault => []
    | _ => [LogEvent.errorProcessing lbl.1]
  | none => [LogEvent.warnSkip lbl.1 (deriveImageFilename lbl.1)]

/-- An output directory that does not exist yet, the normal initial state. -/
def emptyOutput : OutputTree := ⟨none, none, []⟩

/-- A small concrete source images directory used to exercise the theorems. -/
def exImgs : Dir := [("frame_00100.jpg", [1, 2, 3]), ("solo.jpg", [4])]

/-- A small concrete source labels directory used to exercise the theorems:
one matched label with an identifier piece before the hyphen, one label whose
image is missing, one hyphen-free matched label, and one non-`.txt` file. -/
def exLbls : Dir :=
  [("0a5581f7-frame_00100.txt", [9, 8]), ("deadbeef-frame_00999.txt", [7]),
    ("solo.txt", [5]), ("notes.md", [6])]

/-- A small concrete class file used to exercise the theorems. -/
def exCls : String × Bytes := ("classes.txt", [0])

/-! ### Association-list lemmas -/

theorem lookupFile_assocInsert_self (d : Dir) (k : String) (v : Bytes) :
    lookupFile (assocInsert d k v) k = some v := by
  induction d with
  | nil => simp [assocInsert, lookupFile]
  | cons hd t ih =>
    obtain ⟨k', v'⟩ := hd
    by_cases hk : k' = k
    · simp [assocInsert, hk, lookupFile]
    · simp [assocInsert, hk, lookupFile, ih]

theorem lookupFile_assocInsert_ne (d : Dir) (k k' : String) (v : Bytes) (h : k' ≠ k) :
    lookupFile (assocInsert d k v) k' = lookupFile d k' := by
  have hk' : ¬k = k' := fun hh => h hh.symm
  induction d with
  | nil => simp [assocInsert, lookupFile, hk']
  | cons hd t ih =>
    obtain ⟨k₀, v₀⟩ := hd
    by_cases hk : k₀ = k
    · subst hk
      simp [assocInsert, lookupFile, hk']
    · simp [assocInsert, hk, lookupFile, ih]

theorem assocInsert_lookup_self (d : Dir) (k : String) (v : Bytes)
    (h : lookupFile d k = some v) : assocInsert d k v = d := by
  induction d with
  | nil => simp [lookupFile] at h
  | cons hd t ih =>
    obtain ⟨k', v'⟩ := hd
    by_cases hk : k' = k
    · subst hk
      simp [lookupFile] at h
      simp [assocInsert, h]
    · rw [lookupFile, if_neg hk] at h
      simp [assocInsert, hk, ih h]

theorem lookupFile_of_nodup_mem (d : Dir) (k : String) (v : Bytes)
    (hnd : (d.map Prod.fst).Nodup) (hmem : (k, v) ∈ d) : lookupFile d k = some v := by
  induction d with
  | nil => simp at hmem
  | cons hd t ih =>
    obtain ⟨k', v'⟩ := hd
    simp only [List.map_cons, List.nodup_cons] at hnd
    rcases List.mem_cons.mp hmem with h | h
    · injection h with h1 h2
      subst h1
      subst h2
      simp [lookupFile]
    · have hk : k' ≠ k := by
        intro hkk
        exact hnd.1 (hkk ▸ List.mem_map_of_mem Prod.fst h)
      simp [lookupFile, hk, ih hnd.2 h]

/-! ### Lemmas about the Python-style split and join -/

theorem splitOnChar_ne_nil (c : Char) (l : List Char) : splitOnChar c l ≠ [] := by
  cases l with
  | nil => simp [splitOnChar]
  | cons x xs =>
    by_cases h : x = c <;> simp [splitOnChar, h]

theorem splitOnChar_of_not_mem (c : Char) (l : List Char) (h : c ∉ l) :
    splitOnChar c l = [l] := by
  induction l with
  | nil => rfl
  | cons x xs ih =>
    have hx : ¬x = c := fun hx => h (hx ▸ List.mem_cons_self x xs)
    have hxs : c ∉ xs := fun hm => h (List.mem_cons_of_mem x hm)
    simp [splitOnChar, hx, ih hxs]

theorem splitOnChar_of_mem (c : Char) (l : List Char) (h : c ∈ l) :
    splitOnChar c l =
      l.takeWhile (fun y => y ≠ c) :: splitOnChar c ((l.dropWhile (fun y => y ≠ c)).tail) := by
  induction l with
  | nil => simp at h
  | cons x xs ih =>
    by_cases hx : x = c
    · subst hx
      simp [splitOnChar, List.takeWhile, List.dropWhile]
    · have hxs : c ∈ xs := by
        rcases List.mem_cons.mp h with h' | h'
        · exact absurd h'.symm hx
        · exact h'
      rw [List.takeWhile_cons_of_pos (by simpa using hx), List.dropWhile_cons_of_pos
        (by simpa using hx)]
      simp [splitOnChar, hx, ih hxs]

theorem joinWith_splitOnChar (c : Char) (l : List Char) :
    joinWith c (splitOnChar c l) = l := by
  induction l with
  | nil => rfl
  | cons x xs ih =>
    obtain ⟨y, ys, hy⟩ := List.exists_cons_of_ne_nil (splitOnChar_ne_nil c xs)
    by_cases hx : x = c
    · subst hx
      rw [splitOnChar, if_pos rfl, hy, joinWith, ← hy, ih]
      rfl
    · rw [splitOnChar, if_neg hx, hy]
      cases ys with
      | nil =>
        simp only [List.headI, List.tail]
        have := ih
        rw [hy] at this
        simp only [joinWith] at this ⊢
        rw [this]
      | cons z zs =>
        simp only [List.headI, List.tail, joinWith]
        have := ih
        rw [hy] at this
        simp only [joinWith] at this
        simp [← this]

/-! ### Characterization of the filename derivation -/

theorem imageBaseName_of_mem (stem : String) (h : '-' ∈ stem.toList) :
    imageBaseName stem = ((stem.toList.dropWhile (fun y => y ≠ '-')).tail).asString := by
  unfold imageBaseName
  rw [splitOnChar_of_mem '-' _ h]
  have hlen : 1 < (stem.toList.takeWhile (fun y => y ≠ '-') ::
      splitOnChar '-' ((stem.toList.dropWhile (fun y => y ≠ '-')).tail)).length := by
    obtain ⟨y, ys, hy⟩ := List.exists_cons_of_ne_nil
      (splitOnChar_ne_nil '-' ((stem.toList.dropWhile (fun y => y ≠ '-')).tail))
    rw [hy]
    simp
  rw [if_pos hlen]
  simp only [List.tail_cons]
  rw [joinWith_splitOnChar]

theorem imageBaseName_of_not_mem (stem : String) (h : '-' ∉ stem.toList) :
    imageBaseName stem = stem := by
  unfold imageBaseName
  rw [splitOnChar_of_not_mem '-' _ h]
  simp

theorem toList_pyStem_append (n : String) :
    (pyStem n).toList ++ (pySuffix n).toList = n.toList := by
  unfold pyStem pySuffix pySplitName
  rcases hf : n.toList.reverse.findIdx? (fun c => c = '.') with _ | j
  · simp only [hf]
    simp
  · simp only [hf]
    by_cases hc : 0 < n.toList.length - 1 - j ∧ n.toList.length - 1 - j < n.toList.length - 1
    · simp only [if_pos hc]
      rw [List.toList_asString, List.toList_asString, List.take_append_drop]
    · simp only [if_neg hc]
      simp

theorem pyLower_txt_no_hyphen (s : String) (h : pyLower s = ".txt") : '-' ∉ s.toList := by
  intro hm
  have h1 : Char.toLower '-' ∈ (pyLower s).toList := by
    unfold pyLower
    rw [List.toList_asString]
    exact List.mem_map_of_mem Char.toLower hm
  rw [h] at h1
  have h2 : Char.toLower '-' = '-' := by decide
  rw [h2] at h1
  revert h1
  decide

theorem hyphen_in_pyStem (n : String) (hsuf : pyLower (pySuffix n) = ".txt")
    (h : '-' ∈ n.toList) : '-' ∈ (pyStem n).toList := by
  rw [← toList_pyStem_append n] at h
  rcases List.mem_append.mp h with h1 | h1
  · exact h1
  · exact absurd h1 (pyLower_txt_no_hyphen _ hsuf)

theorem deriveImageFilename_of_hyphen (n : String) (hsuf : pyLower (pySuffix n) = ".txt")
    (h : '-' ∈ n.toList) :
    deriveImageFilename n =
      (((pyStem n).toList.dropWhile (fun y => y ≠ '-')).tail).asString ++ ".jpg" := by
  unfold deriveImageFilename
  rw [imageBaseName_of_mem _ (hyphen_in_pyStem n hsuf h)]

theorem deriveImageFilename_of_no_hyphen (n : String) (h : '-' ∉ n.toList) :
    deriveImageFilename n = pyStem n ++ ".jpg" := by
  unfold deriveImageFilename
  have hstem : '-' ∉ (pyStem n).toList := by
    intro hm
    apply h
    rw [← toList_pyStem_append n]
    exact List.mem_append.mpr (Or.inl hm)
  rw [imageBaseName_of_not_mem _ hstem]

/-! ### Behaviour of one loop iteration -/

theorem dirLookup_copyInto (d : Option Dir) (k' : String) (v : Bytes) (k : String) :
    dirLookup (copyInto d k' v) k = if k' = k then some v else dirLookup d k := by
  by_cases hk : k' = k
  · subst hk
    simp [copyInto, dirLookup, lookupFile_assocInsert_self]
  · cases d with
    | none => simp [copyInto, dirLookup, hk, lookupFile_assocInsert_ne _ _ _ _
        (fun hh => hk hh.symm), lookupFile]
    | some files => simp [copyInto, dirLookup, hk, lookupFile_assocInsert_ne _ _ _ _
        (fun hh => hk hh.symm)]

theorem copyInto_eq_self (d : Option Dir) (k : String) (v : Bytes)
    (hs : d.isSome = true) (h : dirLookup d k = some v) : copyInto d k v = d := by
  cases d with
  | none => simp at hs
  | some files =>
    simp only [dirLookup] at h
    simp [copyInto, assocInsert_lookup_self files k v h]

theorem processLabel_rootFiles (imgs : Dir) (fault : String → CopyFault) (st : LoopState)
    (lbl : String × Bytes) :
    (processLabel imgs fault st lbl).out.rootFiles = st.out.rootFiles := by
  unfold processLabel
  cases lookupFile imgs (deriveImageFilename lbl.1) with
  | none => rfl
  | some b => cases fault lbl.1 <;> rfl

theorem processLabel_imagesDir_lookup (imgs : Dir) (fault : String → CopyFault)
    (st : LoopState) (lbl : String × Bytes) (k : String) :
    dirLookup (processLabel imgs fault st lbl).out.imagesDir k =
      if copiesImageTo imgs fault k lbl then lookupFile imgs k
      else dirLookup st.out.imagesDir k := by
  unfold processLabel copiesImageTo matchedLabel
  cases hl : lookupFile imgs (deriveImageFilename lbl.1) with
  | none => simp [hl]
  | some b =>
    cases hf : fault lbl.1 with
    | onImageCopy => simp [hl, hf]
    | onLabelCopy =>
      by_cases hk : deriveImageFilename lbl.1 = k
      · subst hk
        simp [hl, hf, dirLookup_copyInto]
      · simp [hl, hf, dirLookup_copyInto, hk]
    | noFault =>
      by_cases hk : deriveImageFilename lbl.1 = k
      · subst hk
        simp [hl, hf, dirLookup_copyInto]
      · simp [hl, hf, dirLookup_copyInto, hk]

theorem processLabel_labelsDir_lookup (imgs : Dir) (fault : String → CopyFault)
    (st : LoopState) (lbl : String × Bytes) (k : String) :
    dirLookup (processLabel imgs fault st lbl).out.labelsDir k =
      if copiesLabelTo imgs fault k lbl then some lbl.2
      else dirLookup st.out.labelsDir k := by
  unfold processLabel copiesLabelTo matchedLabel
  cases hl : lookupFile imgs (deriveImageFilename lbl.1) with
  | none => simp [hl]
  | some b =>
    cases hf : fault lbl.1 with
    | onImageCopy => simp [hl, hf]
    | onLabelCopy => simp [hl, hf]
    | noFault =>
      by_cases hk : lbl.1 = k
      · subst hk
        simp [hl, hf, dirLookup_copyInto]
      · simp [hl, hf, dirLookup_copyInto, hk]

theorem processLabel_copiedCount (imgs : Dir) (fault : String → CopyFault)
    (st : LoopState) (lbl : String × Bytes) :
    (processLabel imgs fault st lbl).copiedCount =
      st.copiedCount + (if countsAsCopied imgs fault lbl then 1 else 0) := by
  unfold processLabel countsAsCopied matchedLabel
  cases hl : lookupFile imgs (deriveImageFilename lbl.1) with
  | none => simp [hl]
  | some b => cases hf : fault lbl.1 <;> simp [hl, hf]

theorem processLabel_log (imgs : Dir) (fault : String → CopyFault)
    (st : LoopState) (lbl : String × Bytes) :
    (processLabel imgs fault st lbl).log = st.log ++ perLabelLog imgs fault lbl := by
  unfold processLabel perLabelLog
  cases hl : lookupFile imgs (deriveImageFilename lbl.1) with
  | none => simp [hl]
  | some b => cases hf : fault lbl.1 <;> simp [hl, hf]

theorem processLabel_dirs_isSome (imgs : Dir) (fault : String → CopyFault)
    (st : LoopState) (lbl : String × Bytes)
    (h1 : st.out.imagesDir.isSome = true) (h2 : st.out.labelsDir.isSome = true) :
    (processLabel imgs fault st lbl).out.imagesDir.isSome = true ∧
      (processLabel imgs fault st lbl).out.labelsDir.isSome = true := by
  unfold processLabel
  cases hl : lookupFile imgs (deriveImageFilename lbl.1) with
  | none => exact ⟨h1, h2⟩
  | some b => cases hf : fault lbl.1 <;> simp [copyInto, h1, h2]

/-! ### Behaviour of the whole loop -/

theorem foldl_rootFiles (imgs : Dir) (fault : String → CopyFault) (L : Dir) (st : LoopState) :
    (L.foldl (processLabel imgs fault) st).out.rootFiles = st.out.rootFiles := by
  induction L generalizing st with
  | nil => rfl
  | cons l L ih => rw [List.foldl_cons, ih, processLabel_rootFiles]

theorem foldl_imagesDir_lookup (imgs : Dir) (fault : String → CopyFault) (L : Dir)
    (st : LoopState) (k : String) :
    dirLookup (L.foldl (processLabel imgs fault) st).out.imagesDir k =
      if L.any (copiesImageTo imgs fault k) then lookupFile imgs k
      else dirLookup st.out.imagesDir k := by
  induction L generalizing st with
  | nil => simp
  | cons l L ih =>
    rw [List.foldl_cons, ih, processLabel_imagesDir_lookup, List.any_cons]
    cases hc : copiesImageTo imgs fault k l <;> cases hL : L.any (copiesImageTo imgs fault k) <;>
      simp [hc, hL]

theorem foldl_labelsDir_lookup (imgs : Dir) (fault : String → CopyFault) (L : Dir)
    (st : LoopState) (k : String) (g : String → Bytes)
    (hg : ∀ lbl ∈ L, lbl.2 = g lbl.1) :
    dirLookup (L.foldl (processLabel imgs fault) st).out.labelsDir k =
      if L.any (copiesLabelTo imgs fault k) then some (g k)
      else dirLookup st.out.labelsDir k := by
  induction L generalizing st with
  | nil => simp
  | cons l L ih =>
    have hgl : l.2 = g l.1 := hg l (List.mem_cons_self l L)
    have hgL : ∀ lbl ∈ L, lbl.2 = g lbl.1 := fun lbl hm => hg lbl (List.mem_cons_of_mem l hm)
    rw [List.foldl_cons, ih _ hgL, processLabel_labelsDir_lookup, List.any_cons]
    cases hL : L.any (copiesLabelTo imgs fault k)
    · cases hc : copiesLabelTo imgs fault k l
      · simp [hc, hL]
      · have hk : l.1 = k := by
          unfold copiesLabelTo at hc
          simp only [Bool.and_eq_true, decide_eq_true_eq] at hc
          exact hc.1.1
        simp [hc, hL, hgl, hk]
    · simp [hL]

theorem foldl_labelsDir_isSome (imgs : Dir) (fault : String → CopyFault) (L : Dir)
    (st : LoopState) (k : String) :
    (dirLookup (L.foldl (processLabel imgs fault) st).out.labelsDir k).isSome =
      (L.any (copiesLabelTo imgs fault k) ||
        (dirLookup st.out.labelsDir k).isSome) := by
  induction L generalizing st with
  | nil => simp
  | cons l L ih =>
    rw [List.foldl_cons, ih, processLabel_labelsDir_lookup, List.any_cons]
    cases hc : copiesLabelTo imgs fault k l <;> cases hL : L.any (copiesLabelTo imgs fault k) <;>
      simp [hc, hL]

theorem foldl_copiedCount (imgs : Dir) (fault : String → CopyFault) (L : Dir) (st : LoopState) :
    (L.foldl (processLabel imgs fault) st).copiedCount =
      st.copiedCount + (L.filter (countsAsCopied imgs fault)).length := by
  induction L generalizing st with
  | nil => rfl
  | cons l L ih =>
    rw [List.foldl_cons, ih, processLabel_copiedCount, List.filter_cons]
    cases hc : countsAsCopied imgs fault l
    · simp [hc]
    · simp [hc]
      omega

theorem foldl_log (imgs : Dir) (fault : String → CopyFault) (L : Dir) (st : LoopState) :
    (L.foldl (processLabel imgs fault) st).log =
      st.log ++ (L.map (perLabelLog imgs fault)).flatten := by
  induction L generalizing st with
  | nil => simp
  | cons l L ih =>
    rw [List.foldl_cons, ih, processLabel_log]
    simp

theorem foldl_dirs_isSome (imgs : Dir) (fault : String → CopyFault) (L : Dir) (st : LoopState)
    (h1 : st.out.imagesDir.isSome = true) (h2 : st.out.labelsDir.isSome = true) :
    (L.foldl (processLabel imgs fault) st).out.imagesDir.isSome = true ∧
      (L.foldl (processLabel imgs fault) st).out.labelsDir.isSome = true := by
  induction L generalizing st with
  | nil => exact ⟨h1, h2⟩
  | cons l L ih =>
    rw [List.foldl_cons]
    obtain ⟨hh1, hh2⟩ := processLabel_dirs_isSome imgs fault st l h1 h2
    exact ih _ hh1 hh2

theorem foldl_out_eq_of_contains (imgs : Dir) (L : Dir) (st : LoopState) (O : OutputTree)
    (hst : st.out = O)
    (hcp : ∀ lbl ∈ L, ∀ b, lookupFile imgs (deriveImageFilename lbl.1) = some b →
        copyInto O.imagesDir (deriveImageFilename lbl.1) b = O.imagesDir ∧
        copyInto O.labelsDir lbl.1 lbl.2 = O.labelsDir) :
    (L.foldl (processLabel imgs noFaultOracle) st).out = O := by
  induction L generalizing st with
  | nil => exact hst
  | cons l L ih =>
    rw [List.foldl_cons]
    apply ih
    · unfold processLabel noFaultOracle
      cases hl : lookupFile imgs (deriveImageFilename l.1) with
      | none => exact hst
      | some b =>
        obtain ⟨hci, hcl⟩ := hcp l (List.mem_cons_self l L) b hl
        simp only [hst, hci, hcl]
    · exact fun lbl hm => hcp lbl (List.mem_cons_of_mem l hm)

/-! ### Run-level helper lemmas -/

theorem run_ok_eq (imgs lbls : Dir) (cls : String × Bytes) (outInit : OutputTree)
    (fault : String → CopyFault) :
    filter_annotated_data ⟨some imgs, some lbls, some cls⟩ outInit fault =
      RunResult.ok
        { (runLoop imgs lbls fault outInit).out with
          rootFiles := assocInsert (runLoop imgs lbls fault outInit).out.rootFiles cls.1 cls.2 }
        (runLoop imgs lbls fault outInit).copiedCount
        ((runLoop imgs lbls fault outInit).log ++
          [LogEvent.infoComplete (runLoop imgs lbls fault outInit).copiedCount,
            LogEvent.infoAvailable]) := rfl

theorem dirLookup_mkdir_images (o : OutputTree) (k : String) :
    dirLookup (mkdirOutput o).imagesDir k = dirLookup o.imagesDir k := by
  cases h : o.imagesDir with
  | none => simp [mkdirOutput, h, dirLookup, lookupFile]
  | some d => simp [mkdirOutput, h, dirLookup]

theorem dirLookup_mkdir_labels (o : OutputTree) (k : String) :
    dirLookup (mkdirOutput o).labelsDir k = dirLookup o.labelsDir k := by
  cases h : o.labelsDir with
  | none => simp [mkdirOutput, h, dirLookup, lookupFile]
  | some d => simp [mkdirOutput, h, dirLookup]

theorem mkdirOutput_eq_of_isSome (o : OutputTree)
    (h1 : o.imagesDir.isSome = true) (h2 : o.labelsDir.isSome = true) :
    mkdirOutput o = o := by
  obtain ⟨i, l, r⟩ := o
  cases i with
  | none => simp at h1
  | some di =>
    cases l with
    | none => simp at h2
    | some dl => rfl

theorem runLoop_dirs_isSome (imgs lbls : Dir) (fault : String → CopyFault)
    (outInit : OutputTree) :
    (runLoop imgs lbls fault outInit).out.imagesDir.isSome = true ∧
      (runLoop imgs lbls fault outInit).out.labelsDir.isSome = true := by
  unfold runLoop
  exact foldl_dirs_isSome imgs fault (labelFilesOf lbls) (loopInit outInit)
    (by simp [loopInit, mkdirOutput]) (by simp [loopInit, mkdirOutput])

theorem mem_labelFilesOf (lbls : Dir) (lbl : String × Bytes) :
    lbl ∈ labelFilesOf lbls ↔ lbl ∈ lbls ∧ pyLower (pySuffix lbl.1) = ".txt" := by
  unfold labelFilesOf
  rw [List.mem_filter]
  simp

theorem labelFilesOf_nodup_keys (lbls : Dir) (hnd : (lbls.map Prod.fst).Nodup) :
    ((labelFilesOf lbls).map Prod.fst).Nodup := by
  apply List.Nodup.sublist _ hnd
  exact List.Sublist.map Prod.fst (List.filter_sublist lbls)

theorem labelFilesOf_value_eq (lbls : Dir) (hnd : (lbls.map Prod.fst).Nodup)
    (lbl : String × Bytes) (hm : lbl ∈ labelFilesOf lbls) :
    lbl.2 = (lookupFile lbls lbl.1).getD [] := by
  have hmem : lbl ∈ lbls := ((mem_labelFilesOf lbls lbl).mp hm).1
  have := lookupFile_of_nodup_mem lbls lbl.1 lbl.2 hnd hmem
  rw [this]
  rfl

theorem run_copies_matched_pair (imgs lbls : Dir) (outInit : OutputTree)
    (n : String) (b ib : Bytes)
    (hnd : (lbls.map Prod.fst).Nodup)
    (hmem : (n, b) ∈ lbls)
    (htxt : pyLower (pySuffix n) = ".txt")
    (himg : lookupFile imgs (deriveImageFilename n) = some ib) :
    dirLookup (runLoop imgs lbls noFaultOracle outInit).out.imagesDir
        (deriveImageFilename n) = some ib ∧
      dirLookup (runLoop imgs lbls noFaultOracle outInit).out.labelsDir n = some b := by
  have hmemF : (n, b) ∈ labelFilesOf lbls := (mem_labelFilesOf lbls (n, b)).mpr ⟨hmem, htxt⟩
  constructor
  · rw [runLoop, foldl_imagesDir_lookup]
    have hany : (labelFilesOf lbls).any
        (copiesImageTo imgs noFaultOracle (deriveImageFilename n)) = true := by
      refine List.any_eq_true.mpr ⟨(n, b), hmemF, ?_⟩
      simp [copiesImageTo, matchedLabel, himg, noFaultOracle]
    rw [if_pos hany]
    exact himg
  · rw [runLoop, foldl_labelsDir_lookup imgs noFaultOracle (labelFilesOf lbls) _ n
      (fun m => (lookupFile lbls m).getD []) (labelFilesOf_value_eq lbls hnd)]
    have hany : (labelFilesOf lbls).any (copiesLabelTo imgs noFaultOracle n) = true := by
      refine List.any_eq_true.mpr ⟨(n, b), hmemF, ?_⟩
      simp [copiesLabelTo, matchedLabel, himg, noFaultOracle]
    rw [if_pos hany, lookupFile_of_nodup_mem lbls n b hnd hmem]
    rfl

/-- C1: for every label file in the source labels directory with a `.txt`
extension whose derived image file exists in the source images directory,
`filter_annotated_data` copies both the image and the label into the output
tree (under `images/` and `labels/` respectively) with content identical to
the sources. -/
theorem C1_matched_pairs_copied (imgs lbls : Dir) (cls : String × Bytes)
    (outInit : OutputTree) (n : String) (b ib : Bytes)
    (hnd : (lbls.map Prod.fst).Nodup)
    (hmem : (n, b) ∈ lbls)
    (htxt : pyLower (pySuffix n) = ".txt")
    (himg : lookupFile imgs (deriveImageFilename n) = some ib) :
    ∃ out cnt log,
      filter_annotated_data ⟨some imgs, some lbls, some cls⟩ outInit noFaultOracle =
        RunResult.ok out cnt log ∧
      dirLookup out.imagesDir (deriveImageFilename n) = some ib ∧
      dirLookup out.labelsDir n = some b := by
  refine ⟨_, _, _, run_ok_eq imgs lbls cls outInit noFaultOracle, ?_, ?_⟩
  · exact (run_copies_matched_pair imgs lbls outInit n b ib hnd hmem htxt himg).1
  · exact (run_copies_matched_pair imgs lbls outInit n b ib hnd hmem htxt himg).2

theorem C1_witness :
    ∃ out cnt log,
      filter_annotated_data ⟨some exImgs, some exLbls, some exCls⟩ emptyOutput noFaultOracle =
        RunResult.ok out cnt log ∧
      dirLookup out.imagesDir (deriveImageFilename "0a5581f7-frame_00100.txt") =
        some [1, 2, 3] ∧
      dirLookup out.labelsDir "0a5581f7-frame_00100.txt" = some [9, 8] :=
  C1_matched_pairs_copied exImgs exLbls exCls emptyOutput "0a5581f7-frame_00100.txt"
    [9, 8] [1, 2, 3] (by decide) (by decide) (by decide) (by decide)

/-- C2: for every `.txt` label file whose derived image does not exist in the
source images directory, `filter_annotated_data` copies neither the label nor
any image for it into the (initially empty) output tree, logs a warning naming
the skipped label, and still completes the run. -/
theorem C2_unmatched_label_skipped (imgs lbls : Dir) (cls : String × Bytes)
    (n : String) (b : Bytes)
    (hmem : (n, b) ∈ lbls)
    (htxt : pyLower (pySuffix n) = ".txt")
    (himg : lookupFile imgs (deriveImageFilename n) = none) :
    ∃ out cnt log,
      filter_annotated_data ⟨some imgs, some lbls, some cls⟩ emptyOutput noFaultOracle =
        RunResult.ok out cnt log ∧
      LogEvent.warnSkip n (deriveImageFilename n) ∈ log ∧
      dirLookup out.labelsDir n = none ∧
      dirLookup out.imagesDir (deriveImageFilename n) = none := by
  have hmemF : (n, b) ∈ labelFilesOf lbls := (mem_labelFilesOf lbls (n, b)).mpr ⟨hmem, htxt⟩
  refine ⟨_, _, _, run_ok_eq imgs lbls cls emptyOutput noFaultOracle, ?_, ?_, ?_⟩
  · show LogEvent.warnSkip n (deriveImageFilename n) ∈
      (runLoop imgs lbls noFaultOracle emptyOutput).log ++ _
    rw [runLoop, foldl_log]
    refine List.mem_append.mpr (Or.inl (List.mem_append.mpr (Or.inr ?_)))
    refine List.mem_flatten.mpr ⟨perLabelLog imgs noFaultOracle (n, b),
      List.mem_map_of_mem _ hmemF, ?_⟩
    simp [perLabelLog, himg]
  · show dirLookup (runLoop imgs lbls noFaultOracle emptyOutput).out.labelsDir n = none
    have hsome := foldl_labelsDir_isSome imgs noFaultOracle (labelFilesOf lbls)
      (loopInit emptyOutput) n
    have hany : (labelFilesOf lbls).any (copiesLabelTo imgs noFaultOracle n) = false := by
      refine List.any_eq_false.mpr ?_
      intro lbl hm
      simp only [copiesLabelTo, matchedLabel, Bool.and_eq_true, decide_eq_true_eq,
        not_and]
      rintro ⟨hk1, hk2⟩
      rw [hk1, himg] at hk2
      simp at hk2
    rw [runLoop]
    have hinit : dirLookup (loopInit emptyOutput).out.labelsDir n = none := rfl
    rw [hany, hinit] at hsome
    simp only [Bool.false_or, Option.isSome_none] at hsome
    exact Option.not_isSome_iff_eq_none.mp (by rw [hsome]; exact Bool.false_ne_true)
  · show dirLookup (runLoop imgs lbls noFaultOracle emptyOutput).out.imagesDir
      (deriveImageFilename n) = none
    rw [runLoop, foldl_imagesDir_lookup]
    have hany : (labelFilesOf lbls).any
        (copiesImageTo imgs noFaultOracle (deriveImageFilename n)) = false := by
      refine List.any_eq_false.mpr ?_
      intro lbl hm
      simp only [copiesImageTo, matchedLabel, Bool.and_eq_true, decide_eq_true_eq,
        not_and]
      rintro ⟨hk1, hk2⟩
      rw [hk1, himg] at hk2
      simp at hk2
    rw [hany]
    rfl

theorem C2_witness :
    ∃ out cnt log,
      filter_annotated_data ⟨some exImgs, some exLbls, some exCls⟩ emptyOutput noFaultOracle =
        RunResult.ok out cnt log ∧
      LogEvent.warnSkip "deadbeef-frame_00999.txt"
        (deriveImageFilename "deadbeef-frame_00999.txt") ∈ log ∧
      dirLookup out.labelsDir "deadbeef-frame_00999.txt" = none ∧
      dirLookup out.imagesDir (deriveImageFilename "deadbeef-frame_00999.txt") = none :=
  C2_unmatched_label_skipped exImgs exLbls exCls "deadbeef-frame_00999.txt" [7]
    (by decide) (by decide) (by decide)

/-- C3: for a label filename containing a hyphen, the expected image filename
is the label's stem with everything up to and including the first hyphen
removed (later hyphens kept), plus the fixed extension `.jpg`; and only the
existence of that filename in the source images directory decides whether the
pair is copied. -/
theorem C3_derivation_first_hyphen (n : String) (imgs : Dir) (st : LoopState) (b : Bytes)
    (htxt : pyLower (pySuffix n) = ".txt")
    (hhyp : '-' ∈ n.toList) :
    deriveImageFilename n =
      (((pyStem n).toList.dropWhile (fun y => y ≠ '-')).tail).asString ++ ".jpg" ∧
    (processLabel imgs noFaultOracle st (n, b)).copiedCount =
      st.copiedCount + (if matchedLabel imgs n then 1 else 0) ∧
    (matchedLabel imgs n = false ↔
      (processLabel imgs noFaultOracle st (n, b)).log =
        st.log ++ [LogEvent.warnSkip n (deriveImageFilename n)]) := by
  refine ⟨deriveImageFilename_of_hyphen n htxt hhyp, ?_, ?_⟩
  · rw [processLabel_copiedCount]
    have : countsAsCopied imgs noFaultOracle (n, b) = matchedLabel imgs n := by
      simp [countsAsCopied, noFaultOracle]
    rw [this]
  · rw [processLabel_log]
    cases hm : lookupFile imgs (deriveImageFilename n) with
    | none =>
      constructor
      · intro _
        simp [perLabelLog, hm]
      · intro _
        simp [matchedLabel, hm]
    | some v =>
      constructor
      · intro hfalse
        rw [matchedLabel, hm] at hfalse
        simp at hfalse
      · intro hlog
        exfalso
        rw [perLabelLog] at hlog
        simp only [hm, noFaultOracle] at hlog
        simpa using congrArg List.length hlog


theorem C3_witness :
    deriveImageFilename "0a5581f7-frame_00100.txt" =
      ((("0a5581f7-frame_00100".toList).dropWhile (fun y => y ≠ '-')).tail).asString ++
        ".jpg" ∧
    (processLabel exImgs noFaultOracle (loopInit emptyOutput)
        ("0a5581f7-frame_00100.txt", [9, 8])).copiedCount =
      (loopInit emptyOutput).copiedCount +
        (if matchedLabel exImgs "0a5581f7-frame_00100.txt" then 1 else 0) ∧
    (matchedLabel exImgs "0a5581f7-frame_00100.txt" = false ↔
      (processLabel exImgs noFaultOracle (loopInit emptyOutput)
          ("0a5581f7-frame_00100.txt", [9, 8])).log =
        (loopInit emptyOutput).log ++
          [LogEvent.warnSkip "0a5581f7-frame_00100.txt"
            (deriveImageFilename "0a5581f7-frame_00100.txt")]) := by
  have h := C3_derivation_first_hyphen "0a5581f7-frame_00100.txt" exImgs
    (loopInit emptyOutput) [9, 8] (by decide) (by decide)
  refine ⟨?_, h.2.1, h.2.2⟩
  rw [h.1]
  decide

/-- C4: `filter_annotated_data` exits with status 1, leaving the output tree
untouched, exactly when one of the three source paths is missing; when all
three exist it returns normally, with both output subdirectories existing and
the processing log emitted. -/
theorem C4_source_validation (fs : SourceFS) (outInit : OutputTree)
    (fault : String → CopyFault) :
    ((∃ log, filter_annotated_data fs outInit fault = RunResult.exit1 outInit log) ↔
      (fs.imagesDir = none ∨ fs.labelsDir = none ∨ fs.classFile = none)) ∧
    (fs.imagesDir ≠ none → fs.labelsDir ≠ none → fs.classFile ≠ none →
      ∃ out cnt log,
        filter_annotated_data fs outInit fault = RunResult.ok out cnt log ∧
        out.imagesDir.isSome = true ∧ out.labelsDir.isSome = true ∧
        LogEvent.infoStart ∈ log) := by
  obtain ⟨i, l, c⟩ := fs
  cases i with
  | none =>
    exact ⟨⟨fun _ => Or.inl rfl, fun _ => ⟨[LogEvent.errorMissingSources], rfl⟩⟩,
      fun h1 _ _ => absurd rfl h1⟩
  | some imgs =>
    cases l with
    | none =>
      exact ⟨⟨fun _ => Or.inr (Or.inl rfl), fun _ => ⟨[LogEvent.errorMissingSources], rfl⟩⟩,
        fun _ h2 _ => absurd rfl h2⟩
    | some lbls =>
      cases c with
      | none =>
        exact ⟨⟨fun _ => Or.inr (Or.inr rfl), fun _ => ⟨[LogEvent.errorMissingSources], rfl⟩⟩,
          fun _ _ h3 => absurd rfl h3⟩
      | some cls =>
        constructor
        · constructor
          · rintro ⟨log, h⟩
            rw [run_ok_eq] at h
            exact RunResult.noConfusion h
          · rintro (h | h | h) <;> exact Option.noConfusion h
        · intro _ _ _
          refine ⟨_, _, _, run_ok_eq imgs lbls cls outInit fault, ?_, ?_, ?_⟩
          · exact (runLoop_dirs_isSome imgs lbls fault outInit).1
          · exact (runLoop_dirs_isSome imgs lbls fault outInit).2
          · show LogEvent.infoStart ∈ (runLoop imgs lbls fault outInit).log ++ _
            rw [runLoop, foldl_log]
            refine List.mem_append.mpr (Or.inl (List.mem_append.mpr (Or.inl ?_)))
            simp [loopInit]

theorem C4_witness :
    (∃ log, filter_annotated_data ⟨none, some exLbls, some exCls⟩ emptyOutput noFaultOracle =
      RunResult.exit1 emptyOutput log) ∧
    (∃ out cnt log,
      filter_annotated_data ⟨some exImgs, some exLbls, some exCls⟩ emptyOutput noFaultOracle =
        RunResult.ok out cnt log ∧
      out.imagesDir.isSome = true ∧ out.labelsDir.isSome = true ∧
      LogEvent.infoStart ∈ log) :=
  ⟨(C4_source_validation ⟨none, some exLbls, some exCls⟩ emptyOutput noFaultOracle).1.mpr
      (Or.inl rfl),
    (C4_source_validation ⟨some exImgs, some exLbls, some exCls⟩ emptyOutput noFaultOracle).2
      (by decide) (by decide) (by decide)⟩

/-- C5: whenever the source validation passes, the class file is copied into
the root of the output directory exactly once, after the loop, whatever the
matches and whatever per-file copy faults occur: the output root is exactly the
initial root with the single class file written. -/
theorem C5_class_file_always_copied (imgs lbls : Dir) (cls : String × Bytes)
    (outInit : OutputTree) (fault : String → CopyFault) :
    ∃ out cnt log,
      filter_annotated_data ⟨some imgs, some lbls, some cls⟩ outInit fault =
        RunResult.ok out cnt log ∧
      out.rootFiles = assocInsert outInit.rootFiles cls.1 cls.2 ∧
      lookupFile out.rootFiles cls.1 = some cls.2 := by
  refine ⟨_, _, _, run_ok_eq imgs lbls cls outInit fault, ?_, ?_⟩
  · show assocInsert (runLoop imgs lbls fault outInit).out.rootFiles cls.1 cls.2 = _
    rw [runLoop, foldl_rootFiles]
    rfl
  · exact lookupFile_assocInsert_self _ cls.1 cls.2

/-- C6: an exception raised while copying the files of a single label is
caught and logged, and prevents neither the processing of the other label
files nor the copying of the class file: under any fault oracle the run still
returns normally, each faulting matched label leaves an error log entry, every
fault-free matched label still has its label file in the output, and the class
file is in the output root. -/
theorem C6_per_file_exception_contained (imgs lbls : Dir) (cls : String × Bytes)
    (outInit : OutputTree) (fault : String → CopyFault) :
    ∃ out cnt log,
      filter_annotated_data ⟨some imgs, some lbls, some cls⟩ outInit fault =
        RunResult.ok out cnt log ∧
      (∀ lbl ∈ labelFilesOf lbls, matchedLabel imgs lbl.1 = true →
        fault lbl.1 ≠ CopyFault.noFault → LogEvent.errorProcessing lbl.1 ∈ log) ∧
      (∀ lbl ∈ labelFilesOf lbls, matchedLabel imgs lbl.1 = true →
        fault lbl.1 = CopyFault.noFault →
        (dirLookup out.labelsDir lbl.1).isSome = true) ∧
      lookupFile out.rootFiles cls.1 = some cls.2 := by
  refine ⟨_, _, _, run_ok_eq imgs lbls cls outInit fault, ?_, ?_, ?_⟩
  · intro lbl hm hmatch hfault
    show _ ∈ (runLoop imgs lbls fault outInit).log ++ _
    rw [runLoop, foldl_log]
    refine List.mem_append.mpr (Or.inl (List.mem_append.mpr (Or.inr ?_)))
    refine List.mem_flatten.mpr ⟨perLabelLog imgs fault lbl, List.mem_map_of_mem _ hm, ?_⟩
    rw [matchedLabel] at hmatch
    obtain ⟨v, hv⟩ := Option.isSome_iff_exists.mp hmatch
    simp only [perLabelLog, hv]
    cases hf : fault lbl.1 with
    | noFault => exact absurd hf hfault
    | onImageCopy => simp
    | onLabelCopy => simp
  · intro lbl hm hmatch hfault
    show (dirLookup (runLoop imgs lbls fault outInit).out.labelsDir lbl.1).isSome = true
    rw [runLoop, foldl_labelsDir_isSome]
    refine Bool.or_eq_true _ _ |>.mpr (Or.inl ?_)
    refine List.any_eq_true.mpr ⟨lbl, hm, ?_⟩
    simp [copiesLabelTo, hmatch, hfault]
  · exact lookupFile_assocInsert_self _ cls.1 cls.2

/-- C8: the final count logged equals the number of label files for which the
derived image existed and both copies completed without raising. -/
theorem C8_final_count (imgs lbls : Dir) (cls : String × Bytes)
    (outInit : OutputTree) (fault : String → CopyFault) :
    ∃ out cnt log,
      filter_annotated_data ⟨some imgs, some lbls, some cls⟩ outInit fault =
        RunResult.ok out cnt log ∧
      cnt = ((labelFilesOf lbls).filter (countsAsCopied imgs fault)).length ∧
      LogEvent.infoComplete cnt ∈ log := by
  refine ⟨_, _, _, run_ok_eq imgs lbls cls outInit fault, ?_, ?_⟩
  · rw [runLoop, foldl_copiedCount]
    simp [loopInit]
  · show LogEvent.infoComplete (runLoop imgs lbls fault outInit).copiedCount ∈ _
    exact List.mem_append.mpr (Or.inr (List.mem_cons_self _ _))

/-- C9: a label filename containing no hyphen is not skipped: its full stem is
used as the base name, it is matched against `stem.jpg`, and the pair is
copied when that image exists. -/
theorem C9_no_hyphen_label (imgs lbls : Dir) (cls : String × Bytes) (outInit : OutputTree)
    (n : String) (b ib : Bytes)
    (hhyp : '-' ∉ n.toList)
    (hnd : (lbls.map Prod.fst).Nodup)
    (hmem : (n, b) ∈ lbls)
    (htxt : pyLower (pySuffix n) = ".txt")
    (himg : lookupFile imgs (pyStem n ++ ".jpg") = some ib) :
    deriveImageFilename n = pyStem n ++ ".jpg" ∧
    ∃ out cnt log,
      filter_annotated_data ⟨some imgs, some lbls, some cls⟩ outInit noFaultOracle =
        RunResult.ok out cnt log ∧
      dirLookup out.imagesDir (pyStem n ++ ".jpg") = some ib ∧
      dirLookup out.labelsDir n = some b := by
  have hder := deriveImageFilename_of_no_hyphen n hhyp
  have himg' : lookupFile imgs (deriveImageFilename n) = some ib := by
    rw [hder]
    exact himg
  have hpair := run_copies_matched_pair imgs lbls outInit n b ib hnd hmem htxt himg'
  refine ⟨hder, _, _, _, run_ok_eq imgs lbls cls outInit noFaultOracle, ?_, hpair.2⟩
  have := hpair.1
  rw [hder] at this
  exact this

theorem C9_witness :
    deriveImageFilename "solo.txt" = pyStem "solo.txt" ++ ".jpg" ∧
    ∃ out cnt log,
      filter_annotated_data ⟨some exImgs, some exLbls, some exCls⟩ emptyOutput noFaultOracle =
        RunResult.ok out cnt log ∧
      dirLookup out.imagesDir (pyStem "solo.txt" ++ ".jpg") = some [4] ∧
      dirLookup out.labelsDir "solo.txt" = some [5] :=
  C9_no_hyphen_label exImgs exLbls exCls emptyOutput "solo.txt" [5] [4]
    (by decide) (by decide) (by decide) (by decide) (by decide)

/-- C10: every copied label keeps its original filename (identifier piece
included) in the output `labels/` directory while its image is stored under
the derived base name in `images/`; the output labels directory holds no name
other than original label filenames. -/
theorem C10_output_naming (imgs lbls : Dir) (cls : String × Bytes)
    (hnd : (lbls.map Prod.fst).Nodup) :
    ∃ out cnt log,
      filter_annotated_data ⟨some imgs, some lbls, some cls⟩ emptyOutput noFaultOracle =
        RunResult.ok out cnt log ∧
      (∀ n b ib, (n, b) ∈ lbls → pyLower (pySuffix n) = ".txt" →
        lookupFile imgs (deriveImageFilename n) = some ib →
        dirLookup out.labelsDir n = some b ∧
        dirLookup out.imagesDir (deriveImageFilename n) = some ib) ∧
      (∀ k, (dirLookup out.labelsDir k).isSome = true →
        ∃ lbl ∈ labelFilesOf lbls, lbl.1 = k) := by
  refine ⟨_, _, _, run_ok_eq imgs lbls cls emptyOutput noFaultOracle, ?_, ?_⟩
  · intro n b ib hmem htxt himg
    have hpair := run_copies_matched_pair imgs lbls emptyOutput n b ib hnd hmem htxt himg
    exact ⟨hpair.2, hpair.1⟩
  · intro k hk
    have hsome := foldl_labelsDir_isSome imgs noFaultOracle (labelFilesOf lbls)
      (loopInit emptyOutput) k
    have hinit : dirLookup (loopInit emptyOutput).out.labelsDir k = none := rfl
    rw [hinit] at hsome
    have hk' : (dirLookup (runLoop imgs lbls noFaultOracle emptyOutput).out.labelsDir
        k).isSome = true := hk
    rw [runLoop] at hk'
    rw [hk'] at hsome
    simp only [Option.isSome_none, Bool.or_false] at hsome
    obtain ⟨lbl, hm, hc⟩ := List.any_eq_true.mp hsome.symm
    refine ⟨lbl, hm, ?_⟩
    simp only [copiesLabelTo, Bool.and_eq_true, decide_eq_true_eq] at hc
    exact hc.1.1

theorem C10_witness :
    ∃ out cnt log,
      filter_annotated_data ⟨some exImgs, some exLbls, some exCls⟩ emptyOutput noFaultOracle =
        RunResult.ok out cnt log ∧
      (∀ n b ib, (n, b) ∈ exLbls → pyLower (pySuffix n) = ".txt" →
        lookupFile exImgs (deriveImageFilename n) = some ib →
        dirLookup out.labelsDir n = some b ∧
        dirLookup out.imagesDir (deriveImageFilename n) = some ib) ∧
      (∀ k, (dirLookup out.labelsDir k).isSome = true →
        ∃ lbl ∈ labelFilesOf exLbls, lbl.1 = k) :=
  C10_output_naming exImgs exLbls exCls (by decide)

/-- C7: running `filter_annotated_data` a second time with the same sources
and the same output directory is idempotent: the second run overwrites every
output file with identical content and reproduces exactly the result of the
first run. -/
theorem C7_idempotent (imgs lbls : Dir) (cls : String × Bytes) (outInit out1 : OutputTree)
    (cnt1 : Nat) (log1 : List LogEvent)
    (hnd : (lbls.map Prod.fst).Nodup)
    (h1 : filter_annotated_data ⟨some imgs, some lbls, some cls⟩ outInit noFaultOracle =
      RunResult.ok out1 cnt1 log1) :
    filter_annotated_data ⟨some imgs, some lbls, some cls⟩ out1 noFaultOracle =
      RunResult.ok out1 cnt1 log1 := by
  rw [run_ok_eq] at h1
  injection h1 with hout hcnt hlog
  have hiso1 := runLoop_dirs_isSome imgs lbls noFaultOracle outInit
  have hio : out1.imagesDir = (runLoop imgs lbls noFaultOracle outInit).out.imagesDir := by
    rw [← hout]
  have hlo : out1.labelsDir = (runLoop imgs lbls noFaultOracle outInit).out.labelsDir := by
    rw [← hout]
  have hro : out1.rootFiles =
      assocInsert (runLoop imgs lbls noFaultOracle outInit).out.rootFiles cls.1 cls.2 := by
    rw [← hout]
  have hiS : out1.imagesDir.isSome = true := by
    rw [hio]
    exact hiso1.1
  have hlS : out1.labelsDir.isSome = true := by
    rw [hlo]
    exact hiso1.2
  have hst2out : (runLoop imgs lbls noFaultOracle out1).out = out1 := by
    rw [runLoop]
    apply foldl_out_eq_of_contains imgs (labelFilesOf lbls) (loopInit out1) out1
    · exact mkdirOutput_eq_of_isSome out1 hiS hlS
    · intro lbl hm bb hbb
      obtain ⟨hmem', htxt'⟩ := (mem_labelFilesOf lbls lbl).mp hm
      have hpair := run_copies_matched_pair imgs lbls outInit lbl.1 lbl.2 bb hnd hmem'
        htxt' hbb
      constructor
      · apply copyInto_eq_self _ _ _ hiS
        rw [hio]
        exact hpair.1
      · apply copyInto_eq_self _ _ _ hlS
        rw [hlo]
        exact hpair.2
  have hcnt2 : (runLoop imgs lbls noFaultOracle out1).copiedCount =
      (runLoop imgs lbls noFaultOracle outInit).copiedCount := by
    rw [runLoop, runLoop, foldl_copiedCount, foldl_copiedCount]
    rfl
  have hlog2 : (runLoop imgs lbls noFaultOracle out1).log =
      (runLoop imgs lbls noFaultOracle outInit).log := by
    rw [runLoop, runLoop, foldl_log, foldl_log]
    rfl
  have hrootid : assocInsert out1.rootFiles cls.1 cls.2 = out1.rootFiles := by
    apply assocInsert_lookup_self
    rw [hro]
    exact lookupFile_assocInsert_self _ cls.1 cls.2
  rw [run_ok_eq, hst2out, hcnt2, hlog2, hrootid, hlog, hcnt]

theorem C7_witness :
    filter_annotated_data ⟨some exImgs, some exLbls, some exCls⟩
        ⟨some [("frame_00100.jpg", [1, 2, 3]), ("solo.jpg", [4])],
          some [("0a5581f7-frame_00100.txt", [9, 8]), ("solo.txt", [5])],
          [("classes.txt", [0])]⟩ noFaultOracle =
      RunResult.ok
        ⟨some [("frame_00100.jpg", [1, 2, 3]), ("solo.jpg", [4])],
          some [("0a5581f7-frame_00100.txt", [9, 8]), ("solo.txt", [5])],
          [("classes.txt", [0])]⟩ 2
        [LogEvent.infoCreatedDir, LogEvent.infoStart,
          LogEvent.warnSkip "deadbeef-frame_00999.txt" "frame_00999.jpg",
          LogEvent.infoComplete 2, LogEvent.infoAvailable] :=
  C7_idempotent exImgs exLbls exCls emptyOutput
    ⟨some [("frame_00100.jpg", [1, 2, 3]), ("solo.jpg", [4])],
      some [("0a5581f7-frame_00100.txt", [9, 8]), ("solo.txt", [5])],
      [("classes.txt", [0])]⟩ 2
    [LogEvent.infoCreatedDir, LogEvent.infoStart,
      LogEvent.warnSkip "deadbeef-frame_00999.txt" "frame_00999.jpg",
      LogEvent.infoComplete 2, LogEvent.infoAvailable]
    (by decide) (by decide)

end YoloFilter
